import Mathlib

/-!
# Shallow embedding of the Othello engine

This file embeds the Othello rules engine (`components.py`), the CLI move
parser (`game_engine.py`) and the turn-resolution logic of the web handler
(`flask_engine.py`) into Lean, and proves the specification claims about
them.

Modelling conventions:
* Python strings become Lean `String`; `str.strip()` becomes `pyStrip`,
  which removes the ASCII whitespace characters Python strips.
* A board is a `List (List String)`; `board[y][x]` read inside a verified
  bounds check becomes `getCell`.
* Python list assignment `board[y][x] = v`, which can raise `IndexError`
  and which wraps negative indices, becomes `setCell : … → Option Board`;
  `none` models the raised exception.
* External coordinates are `Int` (Python ints), so the `x - 1` conversion
  can go negative exactly as in the source.
* The bounded `while` walk of `_discs_to_flip` becomes `scanLine` with
  fuel `size`; a walk starting in bounds leaves the board after at most
  `size` steps, so the fuel never changes the result.
-/

/-- Python whitespace characters stripped by `str.strip()` (ASCII range). -/
def isPySpace (c : Char) : Bool :=
  c = ' ' || c = '\t' || c = '\n' || c = '\r' || c = '\x0b' || c = '\x0c'

/-- Model of Python `str.strip()`. -/
def pyStrip (s : String) : String :=
  ⟨((s.data.dropWhile isPySpace).reverse.dropWhile isPySpace).reverse⟩

/-- A board cell: the repository stores cells as the strings
`"None "`, `"Black"`, `"White"`. -/
abbrev Cell := String

/-- A board: list of rows, `board[y][x]`. -/
abbrev Board := List (List Cell)

/-- `EMPTY` constant of `components.py` (note the trailing space). -/
def EMPTY : Cell := "None "

/-- `BLACK` constant of `components.py`. -/
def BLACK : Cell := "Black"

/-- `WHITE` constant of `components.py`. -/
def WHITE : Cell := "White"

/-- The eight compass directions, in the order `DIRECTIONS` lists them. -/
def DIRECTIONS : List (Int × Int) :=
  [(-1, -1), (0, -1), (1, -1),
   (-1,  0),          (1,  0),
   (-1,  1), (0,  1), (1,  1)]

/-- Read `board[y][x]` (used only under a verified bounds check). -/
def getCell (b : Board) (x y : Int) : Cell :=
  (b.getD y.toNat []).getD x.toNat ""

/-- Python list index semantics: a valid index `i` with `-len ≤ i < len`
normalises to a natural index, anything else raises `IndexError`. -/
def pyIdx (len : Nat) (i : Int) : Option Nat :=
  if 0 ≤ i ∧ i < (len : Int) then some i.toNat
  else if -(len : Int) ≤ i ∧ i < 0 then some (i + len).toNat
  else none

/-- Python `board[y][x] = v`: `none` models a raised `IndexError`. -/
def setCell (b : Board) (x y : Int) (v : Cell) : Option Board :=
  (pyIdx b.length y).bind fun yi =>
    (pyIdx (b.getD yi []).length x).bind fun xi =>
      some (b.set yi ((b.getD yi []).set xi v))

/-- Read `board[y][x]` with Python index semantics: `none` models a raised
`IndexError`, negative indices wrap. -/
def pyGetCell (b : Board) (x y : Int) : Option Cell :=
  (pyIdx b.length y).bind fun yi =>
    (pyIdx (b.getD yi []).length x).bind fun xi =>
      some ((b.getD yi []).getD xi "")

/-- A well-formed square board: every row is as long as the row list. -/
def SquareBoard (b : Board) : Prop := ∀ row ∈ b, row.length = b.length

/-- `initialise_board`: an all-empty `size × size` board with the four
standard centre discs. -/
def initialise_board (size : Nat) : Board :=
  let board : Board := List.replicate size (List.replicate size EMPTY)
  let mid1 := size / 2 - 1
  let mid2 := size / 2
  let board := board.set mid1 ((board.getD mid1 []).set mid1 WHITE)
  let board := board.set mid2 ((board.getD mid2 []).set mid2 WHITE)
  let board := board.set mid2 ((board.getD mid2 []).set mid1 BLACK)
  let board := board.set mid1 ((board.getD mid1 []).set mid2 BLACK)
  board

/-- One direction of the `while` walk inside `_discs_to_flip`: collect the
consecutive opposing cells from `(cx, cy)` along `(dx, dy)`; `some line`
when the walk ends on a cell of the mover's colour, `none` when it ends on
an empty cell, leaves the board, or the fuel runs out. -/
def scanLine (b : Board) (me other : Cell) (size : Nat) (dx dy : Int) :
    Int → Int → Nat → Option (List (Int × Int))
  | _, _, 0 => none
  | cx, cy, fuel + 1 =>
    if 0 ≤ cx ∧ cx < (size : Int) ∧ 0 ≤ cy ∧ cy < (size : Int) then
      let cell := pyStrip (getCell b cx cy)
      if cell = other then
        match scanLine b me other size dx dy (cx + dx) (cy + dy) fuel with
        | some line => some ((cx, cy) :: line)
        | none => none
      else if cell = me then some []
      else none
    else none

/-- `_discs_to_flip(board, colour, x0, y0)`: the list of cells flipped if
`colour` plays at the 0-based cell `(x0, y0)`; each direction contributes
its line when the walk ends on the mover's colour. -/
def discs_to_flip (b : Board) (colour : String) (x0 y0 : Int) :
    List (Int × Int) :=
  let size := b.length
  if 0 ≤ x0 ∧ x0 < (size : Int) ∧ 0 ≤ y0 ∧ y0 < (size : Int) then
    if pyStrip (getCell b x0 y0) = "None" then
      let me := pyStrip colour
      if me = "Black" ∨ me = "White" then
        let other := if me = "Black" then "White" else "Black"
        DIRECTIONS.flatMap fun d =>
          (scanLine b me other size d.1 d.2 (x0 + d.1) (y0 + d.2) size).getD []
      else []
    else []
  else []

/-- `legal_move(colour, (x, y), board)` for 1-based `(x, y)`. -/
def legal_move (colour : String) (x y : Int) (b : Board) : Bool :=
  let x0 := x - 1
  let y0 := y - 1
  if 0 ≤ x0 ∧ x0 < (b.length : Int) ∧ 0 ≤ y0 ∧ y0 < (b.length : Int) then
    decide (0 < (discs_to_flip b colour x0 y0).length)
  else false

/-- `apply_move(colour, (x, y), board)`: recomputes the flips, writes the
piece at the target cell and at every flipped cell, and returns the flip
count with the mutated board; `none` models a raised `IndexError`.  The
source's `if not flips: return 0` guard is commented out, so the target
cell is written even when the flip list is empty. -/
def apply_move (colour : String) (x y : Int) (b : Board) :
    Option (Nat × Board) :=
  let x0 := x - 1
  let y0 := y - 1
  let flips := discs_to_flip b colour x0 y0
  let piece := if colour = "Black" then BLACK else WHITE
  match setCell b x0 y0 piece with
  | none => none
  | some b1 =>
    match flips.foldlM (fun bb f => setCell bb f.1 f.2 piece) b1 with
    | none => none
    | some b2 => some (flips.length, b2)

/-- `count_pieces(board)`: `(black, white)` counts over the stripped cells. -/
def count_pieces (b : Board) : Nat × Nat :=
  b.foldl
    (fun acc row =>
      row.foldl
        (fun acc2 cell =>
          let v := pyStrip cell
          if v = "Black" then (acc2.1 + 1, acc2.2)
          else if v = "White" then (acc2.1, acc2.2 + 1)
          else acc2)
        acc)
    (0, 0)

/-- Analysis predicate: the cell strips to `"Black"`. -/
def isBlackCell (c : Cell) : Bool := pyStrip c = "Black"

/-- Analysis predicate: the cell strips to `"White"`. -/
def isWhiteCell (c : Cell) : Bool := pyStrip c = "White"

/-- Analysis view of the black count: per-row `countP`, summed. -/
def blackCount (b : Board) : Nat :=
  (b.map fun row => row.countP isBlackCell).sum

/-- Analysis view of the white count: per-row `countP`, summed. -/
def whiteCount (b : Board) : Nat :=
  (b.map fun row => row.countP isWhiteCell).sum

/-- `has_any_legal_moves(colour, board)`: scans every 1-based coordinate. -/
def has_any_legal_moves (colour : String) (b : Board) : Bool :=
  (List.range b.length).any fun y =>
    (List.range b.length).any fun x =>
      legal_move colour ((x : Int) + 1) ((y : Int) + 1) b

/-- `is_game_finished(board)` from `flask_engine.py`. -/
def is_game_finished (b : Board) : Bool :=
  !has_any_legal_moves "Black" b && !has_any_legal_moves "White" b

/-- `other_colour(colour)` from `flask_engine.py` / `game_engine.py`. -/
def other_colour (colour : String) : String :=
  if colour = "Black" then "White" else "Black"

/-- The next-player resolution of the `/move` handler (`flask_engine.py`,
after the move has been applied to `b`): opponent if the opponent can
move, else the mover again, else the opponent (irrelevant, game over). -/
def next_player (current : String) (b : Board) : String :=
  let opponent := other_colour current
  if has_any_legal_moves opponent b then opponent
  else if has_any_legal_moves current b then current
  else opponent

/-- The winner text computed by the `/move` handler once the game is
finished. -/
def winner_text (b : Board) : String :=
  let counts := count_pieces b
  if counts.1 > counts.2 then "Black wins!"
  else if counts.2 > counts.1 then "White wins!"
  else "It's a draw!"

/-- Model of Python's `int(str)` on a character list: optional surrounding
whitespace, an optional sign, then at least one ASCII digit; `none` models
a raised `ValueError`. -/
def pyInt (l : List Char) : Option Int :=
  let t := ((l.dropWhile isPySpace).reverse.dropWhile isPySpace).reverse
  let sd : Int × List Char :=
    match t with
    | '+' :: rest => (1, rest)
    | '-' :: rest => (-1, rest)
    | _ => (1, t)
  if sd.2 ≠ [] ∧ sd.2.all Char.isDigit then
    some (sd.1 *
      ((sd.2.foldl (fun acc c => acc * 10 + (c.toNat - '0'.toNat)) 0 : Nat) : Int))
  else none

/-- `parse_letter_number_input(raw)` from `game_engine.py`: strip, drop
commas and spaces, uppercase, then a column letter `A`–`H` followed by a
row number in `[1, 8]`; `.error msg` models `raise ValueError(msg)`. -/
def parse_letter_number_input (raw : String) : Except String (Int × Int) :=
  let cleaned : List Char :=
    ((pyStrip raw).data.filter fun c => ¬(c = ',' ∨ c = ' ')).map Char.toUpper
  if cleaned.length < 2 then
    .error "Input must contain a letter and a number."
  else
    let letter := cleaned.headD ' '
    if ¬('A' ≤ letter ∧ letter ≤ 'H') then
      .error "Column must be a letter from A to H."
    else
      let x : Int := (letter.toNat : Int) - ('A'.toNat : Int) + 1
      match pyInt (cleaned.drop 1) with
      | none => .error "Row must be a number between 1 and 8."
      | some y =>
        if ¬(1 ≤ y ∧ y ≤ 8) then .error "Row must be between 1 and 8."
        else .ok (x, y)

/-!
## Shared lemmas
-/

/-- `legal_move` rejects every coordinate outside the 1-based board range. -/
theorem legal_move_out_of_bounds (colour : String) (x y : Int) (b : Board)
    (h : ¬(1 ≤ x ∧ x ≤ (b.length : Int) ∧ 1 ≤ y ∧ y ≤ (b.length : Int))) :
    legal_move colour x y b = false := by
  unfold legal_move
  simp only [ite_eq_right_iff]
  intro hc
  exact absurd ⟨by omega, by omega, by omega, by omega⟩ h

/-!
## Cell-access lemmas
-/

theorem getD_set_self {α : Type} (l : List α) (i : Nat) (v d : α)
    (h : i < l.length) : (l.set i v).getD i d = v := by
  rw [List.getD_eq_getElem _ _ (by simpa using h)]
  exact List.getElem_set_self _

theorem getD_set_ne {α : Type} (l : List α) {i j : Nat} (v d : α)
    (h : i ≠ j) : (l.set i v).getD j d = l.getD j d := by
  by_cases hj : j < l.length
  · rw [List.getD_eq_getElem _ _ (by simpa using hj),
      List.getD_eq_getElem _ _ hj]
    exact List.getElem_set_ne h _
  · rw [List.getD_eq_default _ _ (by simp; omega),
      List.getD_eq_default _ _ (by omega)]

theorem pyIdx_of_nonneg_lt {len : Nat} {i : Int} (h0 : 0 ≤ i)
    (h1 : i < (len : Int)) : pyIdx len i = some i.toNat := by
  unfold pyIdx
  rw [if_pos ⟨h0, h1⟩]

theorem pyIdx_lt {len : Nat} {i : Int} {j : Nat} (h : pyIdx len i = some j) :
    j < len := by
  unfold pyIdx at h
  split_ifs at h with h1 h2
  · injection h with h
    omega
  · injection h with h
    omega

theorem pyIdx_of_nonneg {len : Nat} {i : Int} {j : Nat} (h0 : 0 ≤ i)
    (h : pyIdx len i = some j) : j = i.toNat ∧ i < (len : Int) := by
  unfold pyIdx at h
  split_ifs at h with h1 h2
  · injection h with h
    omega
  · omega

/-- Destructure a successful `setCell`. -/
theorem setCell_eq_some {b : Board} {x y : Int} {v : Cell} {b' : Board}
    (h : setCell b x y v = some b') :
    ∃ yi xi, pyIdx b.length y = some yi ∧
      pyIdx (b.getD yi []).length x = some xi ∧
      b' = b.set yi ((b.getD yi []).set xi v) := by
  simp only [setCell, Option.bind_eq_some, Option.some.injEq] at h
  obtain ⟨yi, hyi, xi, hxi, hb⟩ := h
  exact ⟨yi, xi, hyi, hxi, hb.symm⟩

/-- `setCell` succeeds on a valid non-negative coordinate. -/
theorem setCell_of_lt {b : Board} {x y : Int} (v : Cell)
    (hy0 : 0 ≤ y) (hy1 : y < (b.length : Int)) (hx0 : 0 ≤ x)
    (hx1 : x < ((b.getD y.toNat []).length : Int)) :
    setCell b x y v =
      some (b.set y.toNat ((b.getD y.toNat []).set x.toNat v)) := by
  unfold setCell
  rw [pyIdx_of_nonneg_lt hy0 hy1, Option.some_bind,
    pyIdx_of_nonneg_lt hx0 hx1, Option.some_bind]

/-- `setCell` preserves the number of rows. -/
theorem setCell_length {b : Board} {x y : Int} {v : Cell} {b' : Board}
    (h : setCell b x y v = some b') : b'.length = b.length := by
  obtain ⟨yi, xi, _, _, hb⟩ := setCell_eq_some h
  rw [hb, List.length_set]

/-- `setCell` preserves the length of every row. -/
theorem setCell_row_length {b : Board} {x y : Int} {v : Cell} {b' : Board}
    (h : setCell b x y v = some b') (j : Nat) :
    (b'.getD j []).length = (b.getD j []).length := by
  obtain ⟨yi, xi, hyi, hxi, hb⟩ := setCell_eq_some h
  rw [hb]
  by_cases hj : yi = j
  · subst hj
    rw [getD_set_self _ _ _ _ (pyIdx_lt hyi), List.length_set]
  · rw [getD_set_ne _ _ _ hj]

/-- The written cell reads back as the written value. -/
theorem pyGetCell_setCell_self {b : Board} {x y : Int} {v : Cell}
    {b' : Board} (h : setCell b x y v = some b') :
    pyGetCell b' x y = some v := by
  obtain ⟨yi, xi, hyi, hxi, hb⟩ := setCell_eq_some h
  subst hb
  unfold pyGetCell
  rw [List.length_set, hyi, Option.some_bind,
    getD_set_self _ _ _ _ (pyIdx_lt hyi), List.length_set, hxi,
    Option.some_bind, getD_set_self _ _ _ _ (pyIdx_lt hxi)]

/-- After a `setCell`, every cell reads as its old value or the new one. -/
theorem pyGetCell_setCell_or {b : Board} {x y : Int} {v : Cell} {b' : Board}
    (h : setCell b x y v = some b') (p q : Int) :
    pyGetCell b' p q = pyGetCell b p q ∨ pyGetCell b' p q = some v := by
  obtain ⟨yi, xi, hyi, hxi, hb⟩ := setCell_eq_some h
  subst hb
  unfold pyGetCell
  rw [List.length_set]
  cases hq : pyIdx b.length q with
  | none => exact Or.inl rfl
  | some qi =>
    rw [Option.some_bind, Option.some_bind]
    by_cases hqy : yi = qi
    · subst hqy
      rw [getD_set_self _ _ _ _ (pyIdx_lt hyi), List.length_set]
      cases hp : pyIdx (b.getD yi []).length p with
      | none => exact Or.inl rfl
      | some pi =>
        rw [Option.some_bind, Option.some_bind]
        by_cases hpx : xi = pi
        · subst hpx
          rw [getD_set_self _ _ _ _ (pyIdx_lt hxi)]
          exact Or.inr rfl
        · rw [getD_set_ne _ _ _ hpx]
          exact Or.inl rfl
    · rw [getD_set_ne _ _ _ hqy]
      exact Or.inl rfl

/-- A `setCell` at a non-negative coordinate leaves every other
non-negative coordinate unchanged. -/
theorem pyGetCell_setCell_ne {b : Board} {x y : Int} {v : Cell} {b' : Board}
    (h : setCell b x y v = some b') (hx : 0 ≤ x) (hy : 0 ≤ y)
    {p q : Int} (hp : 0 ≤ p) (hq : 0 ≤ q) (hne : (p, q) ≠ (x, y)) :
    pyGetCell b' p q = pyGetCell b p q := by
  obtain ⟨yi, xi, hyi, hxi, hb⟩ := setCell_eq_some h
  obtain ⟨hyiv, hylt⟩ := pyIdx_of_nonneg hy hyi
  obtain ⟨hxiv, hxlt⟩ := pyIdx_of_nonneg hx hxi
  subst hb
  unfold pyGetCell
  rw [List.length_set]
  cases hqi : pyIdx b.length q with
  | none => rfl
  | some qi =>
    obtain ⟨hqiv, hqlt⟩ := pyIdx_of_nonneg hq hqi
    rw [Option.some_bind, Option.some_bind]
    by_cases hqy : q = y
    · subst hqy
      have hyq : yi = qi := by omega
      subst hyq
      rw [getD_set_self _ _ _ _ (pyIdx_lt hyi), List.length_set]
      have hpn : p ≠ x := fun hc => hne (by rw [hc])
      cases hpi : pyIdx (b.getD yi []).length p with
      | none => rfl
      | some pi =>
        obtain ⟨hpiv, hplt⟩ := pyIdx_of_nonneg hp hpi
        rw [Option.some_bind, Option.some_bind]
        have hxp : xi ≠ pi := by omega
        rw [getD_set_ne _ _ _ hxp]
    · have hyq : yi ≠ qi := by omega
      rw [getD_set_ne _ _ _ hyq]


/-!
## Claim C1 — `apply_move` on an illegal move (code bug)

The spec says an illegal move is "a no-op returning zero flips".  The
source's guard `if not flips: return 0` is commented out
(`components.py` lines 129–130), so the target cell is written anyway.
-/

/-- C1 (divergence witness): on the standard initial board, `(1, 1)` is
illegal for Black (`legal_move` is `false`), yet `apply_move` returns
0 flips while overwriting the target cell: cell `(0, 0)` (0-based) changes
from `"None "` to `"Black"`, so the call is not a no-op. -/
theorem apply_move_illegal_move_writes_target_cell :
    legal_move "Black" 1 1 (initialise_board 8) = false ∧
    (apply_move "Black" 1 1 (initialise_board 8)).map
      (fun r => (r.1, pyGetCell r.2 0 0)) = some (0, some "Black") ∧
    pyGetCell (initialise_board 8) 0 0 = some "None " := by
  refine ⟨by decide, by decide, by decide⟩

/-!
## Claim C3 — engine operations never raise (code bug)

`legal_move` indeed never raises, but `apply_move` with an out-of-bounds
coordinate executes `board[y0][x0] = piece` without any bounds guard
(the `if not flips: return 0` line is commented out), which raises
`IndexError` — modelled as `none`.
-/

/-- C3 (divergence witness): on the standard initial board the coordinate
`(9, 9)` is out of bounds; `legal_move` reports `false`, but `apply_move`
raises `IndexError` (modelled by `none`) instead of returning a zero flip
count. -/
theorem apply_move_out_of_bounds_raises :
    legal_move "Black" 9 9 (initialise_board 8) = false ∧
    apply_move "Black" 9 9 (initialise_board 8) = none := by
  refine ⟨by decide, by decide⟩

/-!
## Claim C4 — colour comparison in `_discs_to_flip` (corrected)

The source compares `colour.strip()` against `"Black"`/`"White"` — the
comparison is whitespace-insensitive but case-SENSITIVE: `"black"` is
rejected.
-/

/-- C4 counterexample: Black legally plays the 0-based cell `(2, 3)` on
the initial board (one disc flips), but the colour string `"black"` —
equal to `"Black"` up to letter case — yields the empty flip set rather
than the same flip set, refuting the claimed case-insensitivity. -/
theorem discs_to_flip_lowercase_black_counterexample :
    discs_to_flip (initialise_board 8) "Black" 2 3 = [(3, 3)] ∧
    discs_to_flip (initialise_board 8) "black" 2 3 = [] := by
  refine ⟨by decide, by decide⟩

/-- Auxiliary: `_discs_to_flip` consumes the colour only through
`pyStrip`. -/
theorem discs_to_flip_congr_strip (b : Board) (x0 y0 : Int) (s t : String)
    (h : pyStrip s = pyStrip t) :
    discs_to_flip b s x0 y0 = discs_to_flip b t x0 y0 := by
  unfold discs_to_flip
  rw [h]

/-- C4 (amended): the colour comparison strips surrounding whitespace but
is case-sensitive — a colour string whose stripped form is exactly
`"Black"` (resp. `"White"`) yields the same flip set as the canonical
string, and every other colour string yields the empty flip set. -/
theorem discs_to_flip_trim_sensitive_colour (b : Board) (x0 y0 : Int)
    (s : String) :
    (pyStrip s = "Black" →
      discs_to_flip b s x0 y0 = discs_to_flip b "Black" x0 y0) ∧
    (pyStrip s = "White" →
      discs_to_flip b s x0 y0 = discs_to_flip b "White" x0 y0) ∧
    (pyStrip s ≠ "Black" → pyStrip s ≠ "White" →
      discs_to_flip b s x0 y0 = []) := by
  refine ⟨fun h => discs_to_flip_congr_strip b x0 y0 s "Black" (by rw [h]; decide),
    fun h => discs_to_flip_congr_strip b x0 y0 s "White" (by rw [h]; decide),
    fun hb hw => ?_⟩
  have hnot : ¬(pyStrip s = "Black" ∨ pyStrip s = "White") := by
    rintro (h | h)
    exacts [hb h, hw h]
  simp only [discs_to_flip]
  split_ifs <;> simp_all

/-- C4 witness: `" White "` (surrounding whitespace) yields the same flip
set as `"White"` at cell `(4, 2)` of the initial board, and `"black"`
(case difference) yields the empty flip set. -/
theorem discs_to_flip_trim_sensitive_colour_witness :
    discs_to_flip (initialise_board 8) " White " 4 2 =
      discs_to_flip (initialise_board 8) "White" 4 2 ∧
    discs_to_flip (initialise_board 8) "black" 2 3 = [] :=
  ⟨(discs_to_flip_trim_sensitive_colour (initialise_board 8) 4 2 " White ").2.1
      (by decide),
   (discs_to_flip_trim_sensitive_colour (initialise_board 8) 2 3 "black").2.2
      (by decide) (by decide)⟩

/-!
## Claim C7 — legal moves on the initial board (corrected)

Black's legal moves are exactly {(3,4), (4,3), (5,6), (6,5)} as claimed,
but White also has legal moves before Black has moved: Othello's opening
position is symmetric, and `legal_move` reports `true` for White at
(5,3), (6,4), (3,5) and (4,6).
-/

/-- C7 counterexample: before any move, `legal_move` already returns
`true` for White at `(5, 3)` on the standard initial board, refuting
"White has no legal coordinate until Black moves". -/
theorem initial_board_white_has_legal_move :
    legal_move "White" 5 3 (initialise_board 8) = true := by decide

/-- C7 (amended): on the standard 8×8 initial board the coordinates at
which `legal_move` returns `true` for Black are exactly
{(3,4), (4,3), (5,6), (6,5)}, and those for White are exactly
{(5,3), (6,4), (3,5), (4,6)} — White is only prevented from acting first
by turn order, not by `legal_move`. -/
theorem initial_board_legal_moves : ∀ x y : Int,
    (legal_move "Black" x y (initialise_board 8) = true ↔
      (x, y) ∈ [((3 : Int), (4 : Int)), (4, 3), (5, 6), (6, 5)]) ∧
    (legal_move "White" x y (initialise_board 8) = true ↔
      (x, y) ∈ [((5 : Int), (3 : Int)), (6, 4), (3, 5), (4, 6)]) := by
  intro x y
  by_cases hx : 1 ≤ x ∧ x ≤ 8 ∧ 1 ≤ y ∧ y ≤ 8
  · obtain ⟨h1, h2, h3, h4⟩ := hx
    interval_cases x <;> interval_cases y <;> exact ⟨by decide, by decide⟩
  · have h8 : ((initialise_board 8).length : Int) = 8 := by decide
    have hb := legal_move_out_of_bounds "Black" x y (initialise_board 8)
      (by rw [h8]; omega)
    have hw := legal_move_out_of_bounds "White" x y (initialise_board 8)
      (by rw [h8]; omega)
    rw [hb, hw]
    constructor <;> constructor <;> intro h <;> simp_all <;> omega

/-!
## Claim C10 — CLI coordinate parsing
-/

/-- C10: the parser maps `"  d  6 "` to `(4, 6)`, and each of `"Z9"`,
`"A0"`, `"B12"` is rejected with a descriptive `ValueError` message
(modelled as `.error msg`) rather than a crash or a coordinate. -/
theorem parse_letter_number_input_scenarios :
    parse_letter_number_input "  d  6 " = .ok (4, 6) ∧
    parse_letter_number_input "Z9" =
      .error "Column must be a letter from A to H." ∧
    parse_letter_number_input "A0" =
      .error "Row must be between 1 and 8." ∧
    parse_letter_number_input "B12" =
      .error "Row must be between 1 and 8." := by
  refine ⟨rfl, rfl, rfl, rfl⟩

/-!
## The flip-writing fold of `apply_move`
-/

/-- Destructure a successful `apply_move`. -/
theorem apply_move_eq_some {colour : String} {x y : Int} {b : Board}
    {n : Nat} {b2 : Board} (h : apply_move colour x y b = some (n, b2)) :
    ∃ b1, setCell b (x - 1) (y - 1)
        (if colour = "Black" then BLACK else WHITE) = some b1 ∧
      (discs_to_flip b colour (x - 1) (y - 1)).foldlM
        (fun bb f => setCell bb f.1 f.2
          (if colour = "Black" then BLACK else WHITE)) b1 = some b2 ∧
      n = (discs_to_flip b colour (x - 1) (y - 1)).length := by
  simp only [apply_move] at h
  split at h
  · cases h
  · next b1 h1 =>
    split at h
    · cases h
    · next b2' h2 =>
      injection h with h
      injection h with hn hb
      subst hb
      exact ⟨b1, h1, h2, hn.symm⟩

/-- A cell already holding the written value survives the flip-writing
fold. -/
theorem foldlM_setCell_preserve {piece : Cell} :
    ∀ (fl : List (Int × Int)) (bb b2 : Board),
      fl.foldlM (fun bb f => setCell bb f.1 f.2 piece) bb = some b2 →
      ∀ p q : Int, pyGetCell bb p q = some piece →
      pyGetCell b2 p q = some piece := by
  intro fl
  induction fl with
  | nil =>
    intro bb b2 h p q hv
    simp only [List.foldlM_nil] at h
    injection h with h
    rw [← h]
    exact hv
  | cons f fl ih =>
    intro bb b2 h p q hv
    simp only [List.foldlM_cons, Option.bind_eq_bind,
      Option.bind_eq_some] at h
    obtain ⟨bb1, h1, h2⟩ := h
    refine ih bb1 b2 h2 p q ?_
    rcases pyGetCell_setCell_or h1 p q with heq | heq
    · rw [heq]; exact hv
    · exact heq

/-- Every listed cell holds the written value after the fold. -/
theorem foldlM_setCell_writes {piece : Cell} :
    ∀ (fl : List (Int × Int)) (bb b2 : Board),
      fl.foldlM (fun bb f => setCell bb f.1 f.2 piece) bb = some b2 →
      ∀ f ∈ fl, pyGetCell b2 f.1 f.2 = some piece := by
  intro fl
  induction fl with
  | nil =>
    intro bb b2 h f hf
    cases hf
  | cons g fl ih =>
    intro bb b2 h f hf
    simp only [List.foldlM_cons, Option.bind_eq_bind,
      Option.bind_eq_some] at h
    obtain ⟨bb1, h1, h2⟩ := h
    rcases List.mem_cons.mp hf with hf | hf
    · subst hf
      exact foldlM_setCell_preserve fl bb1 b2 h2 f.1 f.2
        (pyGetCell_setCell_self h1)
    · exact ih bb1 b2 h2 f hf

/-- Cells not in the list keep their value through the fold
(all coordinates non-negative). -/
theorem foldlM_setCell_untouched {piece : Cell} :
    ∀ (fl : List (Int × Int)) (bb b2 : Board),
      fl.foldlM (fun bb f => setCell bb f.1 f.2 piece) bb = some b2 →
      (∀ f ∈ fl, 0 ≤ f.1 ∧ 0 ≤ f.2) →
      ∀ p q : Int, 0 ≤ p → 0 ≤ q → (p, q) ∉ fl →
      pyGetCell b2 p q = pyGetCell bb p q := by
  intro fl
  induction fl with
  | nil =>
    intro bb b2 h _ p q _ _ _
    simp only [List.foldlM_nil] at h
    injection h with h
    rw [h]
  | cons g fl ih =>
    intro bb b2 h hnn p q hp hq hmem
    simp only [List.foldlM_cons, Option.bind_eq_bind,
      Option.bind_eq_some] at h
    obtain ⟨bb1, h1, h2⟩ := h
    have hg := hnn g (List.mem_cons_self g fl)
    have hne2 : (p, q) ≠ (g.1, g.2) := by
      intro hc
      have hpg : (p, q) = g := by rw [hc]
      exact hmem (hpg ▸ List.mem_cons_self g fl)
    have hstep := pyGetCell_setCell_ne h1 hg.1 hg.2 hp hq hne2
    rw [ih bb1 b2 h2 (fun f hf => hnn f (List.mem_cons_of_mem g hf)) p q hp hq
      (fun hc => hmem (List.mem_cons_of_mem g hc)), hstep]

/-!
## Claim C9 — `apply_move` picks the disc by exact string comparison
-/

/-- C9: `apply_move` chooses the written disc by the exact, untrimmed test
`colour == "Black"`: whenever the colour argument is any string other than
exactly `"Black"` and the call succeeds, the placed cell and every flipped
cell read back as `"White"`. -/
theorem apply_move_nonblack_colour_places_white :
    ∀ (colour : String) (x y : Int) (b : Board) (n : Nat) (b2 : Board),
      colour ≠ "Black" →
      apply_move colour x y b = some (n, b2) →
      pyGetCell b2 (x - 1) (y - 1) = some "White" ∧
      ∀ f ∈ discs_to_flip b colour (x - 1) (y - 1),
        pyGetCell b2 f.1 f.2 = some "White" := by
  intro colour x y b n b2 hc happ
  obtain ⟨b1, h1, h2, _⟩ := apply_move_eq_some happ
  rw [if_neg hc] at h1 h2
  have hW : WHITE = "White" := rfl
  rw [hW] at h1 h2
  constructor
  · exact foldlM_setCell_preserve _ b1 b2 h2 _ _ (pyGetCell_setCell_self h1)
  · exact foldlM_setCell_writes _ b1 b2 h2

/-- C9 witness: `" Black "` (whitespace around the canonical colour) is
accepted by `legal_move` as a legal Black move at (3, 4) on the initial
board, yet `apply_move` — comparing the untrimmed string — places White
discs at the target cell and the flipped cell. -/
theorem apply_move_nonblack_colour_places_white_witness :
    legal_move " Black " 3 4 (initialise_board 8) = true ∧
    (apply_move " Black " 3 4 (initialise_board 8)).map
      (fun r => pyGetCell r.2 2 3) = some (some "White") := by
  refine ⟨by decide, ?_⟩
  cases hE : apply_move " Black " 3 4 (initialise_board 8) with
  | none => exact absurd hE (by decide)
  | some r =>
    have h := apply_move_nonblack_colour_places_white " Black " 3 4
      (initialise_board 8) r.1 r.2 (by decide) (by rw [hE])
    have h31 : (3 : Int) - 1 = 2 := by norm_num
    have h41 : (4 : Int) - 1 = 3 := by norm_num
    rw [h31, h41] at h
    simp [h.1]

/-!
## Claim C2 — legality is exactly "at least one flip"
-/

/-- C2: for in-bounds 1-based coordinates, `legal_move` is true iff the
flip set of `_discs_to_flip` at the corresponding 0-based cell is
non-empty — equivalently, iff a completed `apply_move` reports at least
one flipped cell — and every out-of-bounds coordinate is rejected
outright. -/
theorem legal_move_iff_nonempty_flips :
    ∀ (b : Board) (colour : String) (x y : Int),
      ((1 ≤ x ∧ x ≤ (b.length : Int) ∧ 1 ≤ y ∧ y ≤ (b.length : Int)) →
        ((legal_move colour x y b = true ↔
          discs_to_flip b colour (x - 1) (y - 1) ≠ []) ∧
         ∀ n b2, apply_move colour x y b = some (n, b2) →
           (legal_move colour x y b = true ↔ 0 < n))) ∧
      (¬(1 ≤ x ∧ x ≤ (b.length : Int) ∧ 1 ≤ y ∧ y ≤ (b.length : Int)) →
        legal_move colour x y b = false) := by
  intro b colour x y
  constructor
  · rintro ⟨h1, h2, h3, h4⟩
    have hlm : legal_move colour x y b =
        decide (0 < (discs_to_flip b colour (x - 1) (y - 1)).length) := by
      simp only [legal_move]
      rw [if_pos ⟨by omega, by omega, by omega, by omega⟩]
    constructor
    · rw [hlm]
      simp [List.length_pos]
    · intro n b2 happ
      obtain ⟨b1, _, _, hn⟩ := apply_move_eq_some happ
      rw [hlm, hn]
      simp
  · exact legal_move_out_of_bounds colour x y b

/-- C2 witness: instantiated at Black's opening move (3, 4) on the
standard initial board. -/
theorem legal_move_iff_nonempty_flips_witness :
    legal_move "Black" 3 4 (initialise_board 8) = true ↔
      discs_to_flip (initialise_board 8) "Black" (3 - 1) (4 - 1) ≠ [] :=
  ((legal_move_iff_nonempty_flips (initialise_board 8) "Black" 3 4).1
    (by decide)).1

/-!
## Claim C5 — pass handling and game end in the `/move` handler
-/

/-- The winner text is decided by strict comparison of the piece counts. -/
theorem winner_text_cases (b : Board) :
    ((count_pieces b).1 > (count_pieces b).2 →
      winner_text b = "Black wins!") ∧
    ((count_pieces b).2 > (count_pieces b).1 →
      winner_text b = "White wins!") ∧
    ((count_pieces b).1 = (count_pieces b).2 →
      winner_text b = "It's a draw!") := by
  refine ⟨fun h => by simp [winner_text, h], fun h => ?_, fun h => ?_⟩
  · have h1 : ¬((count_pieces b).1 > (count_pieces b).2) := by omega
    simp [winner_text, h, h1]
  · have h1 : ¬((count_pieces b).1 > (count_pieces b).2) := by omega
    have h2 : ¬((count_pieces b).2 > (count_pieces b).1) := by omega
    simp [winner_text, h1, h2]

/-- C5: after a move by `current` has been applied, producing board `b`,
the handler resolves the next player by one-step lookahead: the opponent
if the opponent has a legal move; otherwise `current` again (a pass);
otherwise neither side can move, the game is finished, and the winner is
the colour with strictly more pieces (a draw on equal counts). -/
theorem next_player_pass_and_finish :
    ∀ (current : String) (b : Board),
      current = "Black" ∨ current = "White" →
      (has_any_legal_moves (other_colour current) b = true →
        next_player current b = other_colour current ∧
        is_game_finished b = false) ∧
      (has_any_legal_moves (other_colour current) b = false →
       has_any_legal_moves current b = true →
        next_player current b = current ∧ is_game_finished b = false) ∧
      (has_any_legal_moves (other_colour current) b = false →
       has_any_legal_moves current b = false →
        is_game_finished b = true ∧
        ((count_pieces b).1 > (count_pieces b).2 →
          winner_text b = "Black wins!") ∧
        ((count_pieces b).2 > (count_pieces b).1 →
          winner_text b = "White wins!") ∧
        ((count_pieces b).1 = (count_pieces b).2 →
          winner_text b = "It's a draw!")) := by
  intro current b hcur
  rcases hcur with h | h <;> subst h
  · have hoc : other_colour "Black" = "White" := by simp [other_colour]
    rw [hoc]
    refine ⟨fun hW => ?_, fun hW hB => ?_, fun hW hB => ?_⟩
    · constructor
      · simp [next_player, other_colour, hW]
      · simp [is_game_finished, hW]
    · constructor
      · simp [next_player, other_colour, hW, hB]
      · simp [is_game_finished, hB]
    · exact ⟨by simp [is_game_finished, hW, hB], winner_text_cases b⟩
  · have hoc : other_colour "White" = "Black" := by simp [other_colour]
    rw [hoc]
    refine ⟨fun hB => ?_, fun hB hW => ?_, fun hB hW => ?_⟩
    · constructor
      · simp [next_player, other_colour, hB]
      · simp [is_game_finished, hB]
    · constructor
      · simp [next_player, other_colour, hB, hW]
      · simp [is_game_finished, hW]
    · exact ⟨by simp [is_game_finished, hB, hW], winner_text_cases b⟩

/-- C5 witness: instantiated for `current = "Black"` on the standard
initial board, where the opponent (White) has a legal move, so the next
player is White and the game is not finished. -/
theorem next_player_pass_and_finish_witness :
    next_player "Black" (initialise_board 8) = other_colour "Black" ∧
    is_game_finished (initialise_board 8) = false :=
  (next_player_pass_and_finish "Black" (initialise_board 8)
    (Or.inl rfl)).1 (by decide)

/-!
## Claim C8 — a board with no empty cell is terminal
-/

/-- An in-bounds `getCell` on a square board reads an actual cell. -/
theorem getCell_mem {b : Board} (hsq : SquareBoard b) {x y : Int}
    (hx0 : 0 ≤ x) (hx1 : x < (b.length : Int)) (hy0 : 0 ≤ y)
    (hy1 : y < (b.length : Int)) :
    ∃ row ∈ b, getCell b x y ∈ row := by
  have hyl : y.toNat < b.length := by omega
  have hmem : b[y.toNat] ∈ b := List.getElem_mem _
  have hlen : (b[y.toNat]).length = b.length := hsq _ hmem
  have hxl : x.toNat < (b[y.toNat]).length := by omega
  refine ⟨b[y.toNat], hmem, ?_⟩
  unfold getCell
  rw [List.getD_eq_getElem _ _ hyl, List.getD_eq_getElem _ _ hxl]
  exact List.getElem_mem _

/-- A target cell that does not strip to `"None"` yields no flips. -/
theorem discs_to_flip_eq_nil_of_occupied {b : Board} {colour : String}
    {x0 y0 : Int} (h : pyStrip (getCell b x0 y0) ≠ "None") :
    discs_to_flip b colour x0 y0 = [] := by
  simp only [discs_to_flip]
  split_ifs with h1 h2 h3 <;> first | rfl | exact absurd h2 h

/-- C8: on a square board in which no cell strips to `"None"`,
`has_any_legal_moves` is false for every colour (in particular for Black
and White) and `is_game_finished` is true: every legal move requires an
empty target cell. -/
theorem full_board_is_terminal :
    ∀ b : Board, SquareBoard b →
      (∀ row ∈ b, ∀ c ∈ row, pyStrip c ≠ "None") →
      (∀ colour, has_any_legal_moves colour b = false) ∧
      is_game_finished b = true := by
  intro b hsq hfull
  have hlm : ∀ (colour : String) (x y : Int),
      legal_move colour x y b = false := by
    intro colour x y
    by_cases hin : 1 ≤ x ∧ x ≤ (b.length : Int) ∧ 1 ≤ y ∧
        y ≤ (b.length : Int)
    · obtain ⟨h1, h2, h3, h4⟩ := hin
      obtain ⟨row, hrow, hcell⟩ := getCell_mem hsq (x := x - 1) (y := y - 1)
        (by omega) (by omega) (by omega) (by omega)
      have hflip := @discs_to_flip_eq_nil_of_occupied b colour
        (x - 1) (y - 1) (hfull row hrow _ hcell)
      simp only [legal_move]
      rw [if_pos ⟨by omega, by omega, by omega, by omega⟩, hflip]
      rfl
    · exact legal_move_out_of_bounds colour x y b hin
  have hany : ∀ colour, has_any_legal_moves colour b = false := by
    intro colour
    simp [has_any_legal_moves, hlm]
  exact ⟨hany, by simp [is_game_finished, hany "Black", hany "White"]⟩

/-- C8 witness: a concrete full 2×2 board has no legal move for Black and
is finished. -/
theorem full_board_is_terminal_witness :
    has_any_legal_moves "Black" [["Black", "White"], ["White", "Black"]]
      = false ∧
    is_game_finished [["Black", "White"], ["White", "Black"]] = true := by
  obtain ⟨h1, h2⟩ := full_board_is_terminal
    [["Black", "White"], ["White", "Black"]]
    (by unfold SquareBoard; decide) (by decide)
  exact ⟨h1 "Black", h2⟩

/-!
## Claim C6 — conservation: a legal move adds exactly one disc

The proof characterises the flip list produced by the directional walks,
establishes that it has no duplicates and avoids the target cell, and
tracks the piece counts through the sequence of cell writes.
-/

/-- Every element of a successful `scanLine` walk lies on the ray from the
start cell, is in bounds, and strips to the opposing colour. -/
theorem scanLine_spec {b : Board} {me other : Cell} {size : Nat}
    {dx dy : Int} :
    ∀ (fuel : Nat) (cx cy : Int) (l : List (Int × Int)),
      scanLine b me other size dx dy cx cy fuel = some l →
      ∀ (i : Nat) (hi : i < l.length),
        l[i] = (cx + (i : Int) * dx, cy + (i : Int) * dy) ∧
        0 ≤ cx + (i : Int) * dx ∧ cx + (i : Int) * dx < (size : Int) ∧
        0 ≤ cy + (i : Int) * dy ∧ cy + (i : Int) * dy < (size : Int) ∧
        pyStrip (getCell b (cx + (i : Int) * dx) (cy + (i : Int) * dy))
          = other := by
  intro fuel
  induction fuel with
  | zero =>
    intro cx cy l h
    simp only [scanLine] at h
    cases h
  | succ n ih =>
    intro cx cy l h
    simp only [scanLine] at h
    split_ifs at h with hbnd hoth hme
    · cases hrec : scanLine b me other size dx dy (cx + dx) (cy + dy) n with
      | none => rw [hrec] at h; cases h
      | some line =>
        rw [hrec] at h
        injection h with h
        subst h
        intro i hi
        match i with
        | 0 =>
          refine ⟨by simp, by simpa using hbnd.1, by simpa using hbnd.2.1,
            by simpa using hbnd.2.2.1, by simpa using hbnd.2.2.2, ?_⟩
          simpa using hoth
        | Nat.succ j =>
          have hj : j < line.length := by simpa using hi
          have hx : cx + ((j + 1 : Nat) : Int) * dx
              = (cx + dx) + (j : Int) * dx := by push_cast; ring
          have hy : cy + ((j + 1 : Nat) : Int) * dy
              = (cy + dy) + (j : Int) * dy := by push_cast; ring
          have := ih (cx + dx) (cy + dy) line hrec j hj
          rw [hx, hy]
          simpa using this
    · cases h
      intro i hi
      simp at hi

/-- No direction is the zero vector. -/
theorem directions_ne_zero : ∀ d ∈ DIRECTIONS, d.1 ≠ 0 ∨ d.2 ≠ 0 := by
  decide


/-- Distinct points on the rays of two directions from a common origin are
distinct: positive multiples of two `DIRECTIONS` agree only when direction
and multiplier agree. -/
theorem direction_ray_inj :
    ∀ d₁ ∈ DIRECTIONS, ∀ d₂ ∈ DIRECTIONS, ∀ k₁ k₂ : Int,
      1 ≤ k₁ → 1 ≤ k₂ → k₁ * d₁.1 = k₂ * d₂.1 → k₁ * d₁.2 = k₂ * d₂.2 →
      d₁ = d₂ ∧ k₁ = k₂ := by
  intro d₁ h₁ d₂ h₂ k₁ k₂ hk₁ hk₂ hx hy
  simp only [DIRECTIONS, List.mem_cons, List.not_mem_nil, or_false] at h₁ h₂
  rcases h₁ with h | h | h | h | h | h | h | h <;> subst h <;>
    (rcases h₂ with h | h | h | h | h | h | h | h <;> subst h) <;>
    simp only [mul_zero, mul_one, mul_neg_one] at hx hy <;>
    first
    | exact ⟨rfl, by omega⟩
    | (exfalso; omega)

/-- Membership in one direction's contribution to the flip list: the cell
lies on the ray from `(x0, y0)`, in bounds, and strips to `other`. -/
theorem mem_scanLine_ray {b : Board} {me other : Cell} {size : Nat}
    {dx dy x0 y0 : Int} {f : Int × Int}
    (hf : f ∈ (scanLine b me other size dx dy (x0 + dx) (y0 + dy)
      size).getD []) :
    ∃ k : Nat, 1 ≤ k ∧
      f = (x0 + (k : Int) * dx, y0 + (k : Int) * dy) ∧
      0 ≤ f.1 ∧ f.1 < (size : Int) ∧ 0 ≤ f.2 ∧ f.2 < (size : Int) ∧
      pyStrip (getCell b f.1 f.2) = other := by
  cases hscan : scanLine b me other size dx dy (x0 + dx) (y0 + dy) size with
  | none => rw [hscan] at hf; simp at hf
  | some l =>
    rw [hscan] at hf
    simp only [Option.getD_some] at hf
    obtain ⟨i, hi, hfi⟩ := List.mem_iff_getElem.mp hf
    obtain ⟨heq, hb1, hb2, hb3, hb4, hcell⟩ :=
      scanLine_spec size (x0 + dx) (y0 + dy) l hscan i hi
    refine ⟨i + 1, by omega, ?_, ?_⟩
    · rw [← hfi, heq, Prod.mk.injEq]
      constructor <;> push_cast <;> ring
    · have hf1 : f.1 = x0 + dx + (i : Int) * dx := by rw [← hfi, heq]
      have hf2 : f.2 = y0 + dy + (i : Int) * dy := by rw [← hfi, heq]
      rw [hf1, hf2]
      exact ⟨hb1, hb2, hb3, hb4, hcell⟩

/-- One direction's contribution has no duplicate cells. -/
theorem scanLine_ray_nodup (b : Board) (me other : Cell) (size : Nat)
    {d : Int × Int} (hd : d ∈ DIRECTIONS) (x0 y0 : Int) :
    ((scanLine b me other size d.1 d.2 (x0 + d.1) (y0 + d.2)
      size).getD []).Nodup := by
  cases hscan : scanLine b me other size d.1 d.2 (x0 + d.1) (y0 + d.2)
      size with
  | none => simp
  | some l =>
    simp only [Option.getD_some]
    rw [List.nodup_iff_injective_get]
    intro ⟨i, hi⟩ ⟨j, hj⟩ hij
    simp only [List.get_eq_getElem] at hij
    obtain ⟨hieq, _⟩ := scanLine_spec size (x0 + d.1) (y0 + d.2)
      l hscan i hi
    obtain ⟨hjeq, _⟩ := scanLine_spec size (x0 + d.1) (y0 + d.2)
      l hscan j hj
    rw [hieq, hjeq, Prod.mk.injEq] at hij
    rcases directions_ne_zero d hd with h | h
    · have hmm : (i : Int) * d.1 = (j : Int) * d.1 := by omega
      have := mul_right_cancel₀ h hmm
      simp only [Fin.mk.injEq]
      omega
    · have hmm : (i : Int) * d.2 = (j : Int) * d.2 := by omega
      have := mul_right_cancel₀ h hmm
      simp only [Fin.mk.injEq]
      omega

/-- Contributions of two distinct directions are disjoint. -/
theorem scanLine_ray_disjoint (b : Board) (me other : Cell) (size : Nat)
    (x0 y0 : Int) {d₁ d₂ : Int × Int} (h₁ : d₁ ∈ DIRECTIONS)
    (h₂ : d₂ ∈ DIRECTIONS) (hne : d₁ ≠ d₂) :
    List.Disjoint
      ((scanLine b me other size d₁.1 d₁.2 (x0 + d₁.1) (y0 + d₁.2)
        size).getD [])
      ((scanLine b me other size d₂.1 d₂.2 (x0 + d₂.1) (y0 + d₂.2)
        size).getD []) := by
  intro f hf₁ hf₂
  obtain ⟨k₁, hk₁, hray₁, _⟩ := mem_scanLine_ray hf₁
  obtain ⟨k₂, hk₂, hray₂, _⟩ := mem_scanLine_ray hf₂
  rw [hray₁, Prod.mk.injEq] at hray₂
  have hdd := direction_ray_inj d₁ h₁ d₂ h₂ k₁ k₂ (by omega) (by omega)
    (by omega) (by omega)
  exact hne hdd.1

/-- Membership in the flip list: every flipped cell lies on a direction
ray from the target, is in bounds, and strips to the opposing colour. -/
theorem mem_discs_to_flip {b : Board} {colour : String} {x0 y0 : Int}
    {f : Int × Int} (hf : f ∈ discs_to_flip b colour x0 y0) :
    ∃ d ∈ DIRECTIONS, ∃ k : Nat, 1 ≤ k ∧
      f = (x0 + (k : Int) * d.1, y0 + (k : Int) * d.2) ∧
      0 ≤ f.1 ∧ f.1 < (b.length : Int) ∧ 0 ≤ f.2 ∧
      f.2 < (b.length : Int) ∧
      pyStrip (getCell b f.1 f.2) =
        (if pyStrip colour = "Black" then "White" else "Black") := by
  simp only [discs_to_flip] at hf
  split_ifs at hf with h1 h2 h3 h4 <;>
    try exact absurd hf (List.not_mem_nil f)
  all_goals
    rw [List.mem_flatMap] at hf
  all_goals
    obtain ⟨d, hd, hfd⟩ := hf
  all_goals
    obtain ⟨k, hk, hray, hb1, hb2, hb3, hb4, hcell⟩ := mem_scanLine_ray hfd
  all_goals
    refine ⟨d, hd, k, hk, hray, hb1, hb2, hb3, hb4, ?_⟩
  · rw [if_pos h4]
    exact hcell
  · rw [if_neg h4]
    exact hcell

/-- No flipped cell is the target cell itself. -/
theorem discs_to_flip_ne_target {b : Board} {colour : String}
    {x0 y0 : Int} {f : Int × Int} (hf : f ∈ discs_to_flip b colour x0 y0) :
    f ≠ (x0, y0) := by
  obtain ⟨d, hd, k, hk, hray, _⟩ := mem_discs_to_flip hf
  intro hc
  rw [hc] at hray
  rw [Prod.mk.injEq] at hray
  have hx : (k : Int) * d.1 = 0 := by omega
  have hy : (k : Int) * d.2 = 0 := by omega
  rcases directions_ne_zero d hd with h | h
  · rcases mul_eq_zero.mp hx with h' | h'
    · omega
    · exact h h'
  · rcases mul_eq_zero.mp hy with h' | h'
    · omega
    · exact h h'

/-- The flip list contains no duplicate cells. -/
theorem discs_to_flip_nodup (b : Board) (colour : String) (x0 y0 : Int) :
    (discs_to_flip b colour x0 y0).Nodup := by
  simp only [discs_to_flip]
  split_ifs with h1 h2 h3 h4 <;>
    try exact List.nodup_nil
  all_goals
    rw [List.nodup_flatMap]
  all_goals
    refine ⟨fun d hd => scanLine_ray_nodup _ _ _ _ hd x0 y0, ?_⟩
  all_goals
    have hD : DIRECTIONS.Nodup := by decide
  all_goals
    refine List.pairwise_iff_getElem.mpr fun i j hi hj hij => ?_
  all_goals
    exact scanLine_ray_disjoint _ _ _ _ x0 y0 (List.getElem_mem hi)
      (List.getElem_mem hj)
      (fun hc => absurd (hD.getElem_inj_iff.mp hc) (by omega))

/-- A `getD` returning something other than the default is in range. -/
theorem getD_ne_default_lt {α : Type} {l : List α} {i : Nat} {d : α}
    (h : l.getD i d ≠ d) : i < l.length := by
  by_cases hi : i < l.length
  · exact hi
  · exact absurd (List.getD_eq_default _ _ (by omega)) h

/-- A successful `pyGetCell` at non-negative coordinates reads `getCell`. -/
theorem pyGetCell_nonneg_eq {b : Board} {x y : Int} (hx : 0 ≤ x)
    (hy : 0 ≤ y) {v : Cell} (h : pyGetCell b x y = some v) :
    v = getCell b x y := by
  simp only [pyGetCell, Option.bind_eq_some, Option.some.injEq] at h
  obtain ⟨yi, hyi, xi, hxi, hv⟩ := h
  obtain ⟨hyiv, _⟩ := pyIdx_of_nonneg hy hyi
  obtain ⟨hxiv, _⟩ := pyIdx_of_nonneg hx hxi
  subst hyiv hxiv
  rw [← hv]
  rfl

/-- A cell that does not read as the default is reachable by `pyGetCell`. -/
theorem pyGetCell_of_ne_default {b : Board} {p q : Int} (hp : 0 ≤ p)
    (hq : 0 ≤ q) (hq2 : q < (b.length : Int))
    (h : getCell b p q ≠ "") :
    pyGetCell b p q = some (getCell b p q) := by
  have hrow : p.toNat < (b.getD q.toNat []).length := by
    refine getD_ne_default_lt (d := "") ?_
    exact h
  unfold pyGetCell
  rw [pyIdx_of_nonneg_lt hq hq2, Option.some_bind,
    pyIdx_of_nonneg_lt hp (by omega), Option.some_bind]
  rfl

/-- Destructure a successful `legal_move`. -/
theorem legal_move_dest {colour : String} {x y : Int} {b : Board}
    (h : legal_move colour x y b = true) :
    (0 ≤ x - 1 ∧ x - 1 < (b.length : Int) ∧ 0 ≤ y - 1 ∧
      y - 1 < (b.length : Int)) ∧
    0 < (discs_to_flip b colour (x - 1) (y - 1)).length := by
  simp only [legal_move] at h
  split_ifs at h with hc
  · exact ⟨hc, by simpa using h⟩

/-- A non-empty flip list certifies the target cell was empty and the
colour was canonical after stripping. -/
theorem discs_to_flip_ne_nil_dest {b : Board} {colour : String}
    {x0 y0 : Int} (h : discs_to_flip b colour x0 y0 ≠ []) :
    pyStrip (getCell b x0 y0) = "None" ∧
    (pyStrip colour = "Black" ∨ pyStrip colour = "White") := by
  simp only [discs_to_flip] at h
  split_ifs at h with h1 h2 h3 h4 <;>
    first
    | exact ⟨h2, h3⟩
    | exact absurd rfl h

/-- Setting inside a list shifts `countP` by the exchanged indicator. -/
theorem countP_set_add {α : Type} (p : α → Bool) :
    ∀ (l : List α) (i : Nat) (hi : i < l.length) (v : α),
      (l.set i v).countP p + (if p l[i] then 1 else 0)
        = l.countP p + (if p v then 1 else 0) := by
  intro l
  induction l with
  | nil =>
    intro i hi
    simp at hi
  | cons a l ih =>
    intro i hi v
    cases i with
    | zero =>
      simp only [List.set_cons_zero, List.countP_cons, List.getElem_cons_zero]
      omega
    | succ n =>
      simp only [List.set_cons_succ, List.countP_cons,
        List.getElem_cons_succ]
      have := ih n (by simpa using hi) v
      omega

/-- Setting inside a list shifts the sum by the exchanged element. -/
theorem sum_set_add :
    ∀ (l : List Nat) (i : Nat) (hi : i < l.length) (v : Nat),
      (l.set i v).sum + l[i] = l.sum + v := by
  intro l
  induction l with
  | nil =>
    intro i hi
    simp at hi
  | cons a l ih =>
    intro i hi v
    cases i with
    | zero =>
      simp only [List.set_cons_zero, List.sum_cons, List.getElem_cons_zero]
      omega
    | succ n =>
      simp only [List.set_cons_succ, List.sum_cons, List.getElem_cons_succ]
      have := ih n (by simpa using hi) v
      omega

/-- Replacing one row shifts the summed row counts accordingly. -/
theorem rowcounts_sum_set (p : Cell → Bool) (b : Board) (yi : Nat)
    (hyi : yi < b.length) (r : List Cell) :
    ((b.set yi r).map (fun row => row.countP p)).sum + (b[yi]).countP p
      = (b.map (fun row => row.countP p)).sum + r.countP p := by
  rw [List.map_set]
  have hlen : yi < (b.map fun row => row.countP p).length := by
    simpa using hyi
  have := sum_set_add (b.map fun row => row.countP p) yi hlen (r.countP p)
  rw [List.getElem_map] at this
  exact this

/-- The row fold of `count_pieces` adds the per-row counts. -/
theorem count_pieces_row_foldl (row : List Cell) :
    ∀ acc : Nat × Nat,
      row.foldl
        (fun acc2 cell =>
          let v := pyStrip cell
          if v = "Black" then (acc2.1 + 1, acc2.2)
          else if v = "White" then (acc2.1, acc2.2 + 1)
          else acc2)
        acc
      = (acc.1 + row.countP isBlackCell, acc.2 + row.countP isWhiteCell) := by
  induction row with
  | nil =>
    intro acc
    simp
  | cons c row ih =>
    intro acc
    simp only [List.foldl_cons]
    rw [ih]
    by_cases hB : pyStrip c = "Black"
    · have hW : ¬pyStrip c = "White" := by rw [hB]; decide
      simp only [hB, if_pos, List.countP_cons, isBlackCell, isWhiteCell,
        hW, decide_eq_true_eq]
      simp [hB, hW]
      omega
    · by_cases hW : pyStrip c = "White"
      · simp only [List.countP_cons, isBlackCell, isWhiteCell]
        simp [hB, hW]
        omega
      · simp only [List.countP_cons, isBlackCell, isWhiteCell]
        simp [hB, hW]

/-- `count_pieces` computes `(blackCount, whiteCount)`. -/
theorem count_pieces_eq (b : Board) :
    count_pieces b = (blackCount b, whiteCount b) := by
  suffices h : ∀ acc : Nat × Nat,
      b.foldl
        (fun acc row =>
          row.foldl
            (fun acc2 cell =>
              let v := pyStrip cell
              if v = "Black" then (acc2.1 + 1, acc2.2)
              else if v = "White" then (acc2.1, acc2.2 + 1)
              else acc2)
            acc)
        acc
      = (acc.1 + blackCount b, acc.2 + whiteCount b) by
    have := h (0, 0)
    simpa [count_pieces] using this
  induction b with
  | nil =>
    intro acc
    simp [blackCount, whiteCount]
  | cons row b ih =>
    intro acc
    simp only [List.foldl_cons]
    rw [count_pieces_row_foldl, ih]
    simp only [blackCount, whiteCount, List.map_cons, List.sum_cons,
      Prod.mk.injEq]
    constructor <;> omega

/-- One `setCell` exchanges the written cell's indicators in the counts. -/
theorem counts_setCell {b : Board} {x y : Int} {v : Cell} {b' : Board}
    (h : setCell b x y v = some b') :
    ∃ u, pyGetCell b x y = some u ∧
      blackCount b' + (if isBlackCell u then 1 else 0)
        = blackCount b + (if isBlackCell v then 1 else 0) ∧
      whiteCount b' + (if isWhiteCell u then 1 else 0)
        = whiteCount b + (if isWhiteCell v then 1 else 0) := by
  obtain ⟨yi, xi, hyi, hxi, hb⟩ := setCell_eq_some h
  have hylt := pyIdx_lt hyi
  have hxlt := pyIdx_lt hxi
  have hrow : b.getD yi [] = b[yi] := List.getD_eq_getElem _ _ hylt
  have hxlt' : xi < (b[yi]).length := by rw [← hrow]; exact hxlt
  refine ⟨(b.getD yi []).getD xi "", ?_, ?_, ?_⟩
  · unfold pyGetCell
    rw [hyi, Option.some_bind, hxi, Option.some_bind]
  · have h1 := rowcounts_sum_set isBlackCell b yi hylt
      ((b.getD yi []).set xi v)
    have h2 := countP_set_add isBlackCell (b.getD yi []) xi hxlt v
    have hgd : (b.getD yi [])[xi] = (b.getD yi []).getD xi "" :=
      (List.getD_eq_getElem _ _ hxlt).symm
    rw [hgd] at h2
    rw [hb]
    simp only [blackCount]
    rw [← hrow] at h1
    omega
  · have h1 := rowcounts_sum_set isWhiteCell b yi hylt
      ((b.getD yi []).set xi v)
    have h2 := countP_set_add isWhiteCell (b.getD yi []) xi hxlt v
    have hgd : (b.getD yi [])[xi] = (b.getD yi []).getD xi "" :=
      (List.getD_eq_getElem _ _ hxlt).symm
    rw [hgd] at h2
    rw [hb]
    simp only [whiteCount]
    rw [← hrow] at h1
    omega

/-- The flip-writing fold preserves the board's shape. -/
theorem foldlM_setCell_shape {piece : Cell} :
    ∀ (fl : List (Int × Int)) (bb b2 : Board),
      fl.foldlM (fun bb f => setCell bb f.1 f.2 piece) bb = some b2 →
      b2.length = bb.length ∧
      ∀ j : Nat, (b2.getD j []).length = (bb.getD j []).length := by
  intro fl
  induction fl with
  | nil =>
    intro bb b2 h
    simp only [List.foldlM_nil] at h
    injection h with h
    rw [h]
    exact ⟨rfl, fun _ => rfl⟩
  | cons g fl ih =>
    intro bb b2 h
    simp only [List.foldlM_cons, Option.bind_eq_bind,
      Option.bind_eq_some] at h
    obtain ⟨bb1, h1, h2⟩ := h
    obtain ⟨hl, hr⟩ := ih bb1 b2 h2
    exact ⟨hl.trans (setCell_length h1),
      fun j => (hr j).trans (setCell_row_length h1 j)⟩

/-- Writing a canonical piece over cells that all strip to the same
canonical opposing colour leaves `blackCount + whiteCount` unchanged. -/
theorem foldlM_setCell_total {piece other : Cell}
    (hpiece : pyStrip piece = "Black" ∨ pyStrip piece = "White")
    (hother : other = "Black" ∨ other = "White") :
    ∀ (fl : List (Int × Int)), fl.Nodup →
      ∀ (bb b2 : Board),
      fl.foldlM (fun bb f => setCell bb f.1 f.2 piece) bb = some b2 →
      (∀ f ∈ fl, 0 ≤ f.1 ∧ 0 ≤ f.2) →
      (∀ f ∈ fl, ∃ u, pyGetCell bb f.1 f.2 = some u ∧ pyStrip u = other) →
      blackCount b2 + whiteCount b2 = blackCount bb + whiteCount bb := by
  intro fl
  induction fl with
  | nil =>
    intro _ bb b2 h _ _
    simp only [List.foldlM_nil] at h
    injection h with h
    rw [h]
  | cons g fl ih =>
    intro hnodup bb b2 h hnn hvals
    simp only [List.foldlM_cons, Option.bind_eq_bind,
      Option.bind_eq_some] at h
    obtain ⟨bb1, h1, h2⟩ := h
    obtain ⟨u, hu, hustrip⟩ := hvals g (List.mem_cons_self g fl)
    obtain ⟨u', hu', e1, e2⟩ := counts_setCell h1
    rw [hu] at hu'
    injection hu' with hu'
    subst hu'
    have hg := hnn g (List.mem_cons_self g fl)
    have hgtail : g ∉ fl := (List.nodup_cons.mp hnodup).1
    have htail : blackCount b2 + whiteCount b2
        = blackCount bb1 + whiteCount bb1 := by
      refine ih (List.nodup_cons.mp hnodup).2 bb1 b2 h2
        (fun f hf => hnn f (List.mem_cons_of_mem g hf)) (fun f hf => ?_)
      obtain ⟨w, hw, hwstrip⟩ := hvals f (List.mem_cons_of_mem g hf)
      have hfne : (f.1, f.2) ≠ (g.1, g.2) := by
        intro hc
        rw [Prod.mk.injEq] at hc
        have : f = g := Prod.ext hc.1 hc.2
        exact hgtail (this ▸ hf)
      have := pyGetCell_setCell_ne h1 hg.1 hg.2
        (hnn f (List.mem_cons_of_mem g hf)).1
        (hnn f (List.mem_cons_of_mem g hf)).2 hfne
      exact ⟨w, this.trans hw, hwstrip⟩
    have hiu : (if isBlackCell u then 1 else 0)
        + (if isWhiteCell u then 1 else 0) = 1 := by
      rcases hother with ho | ho <;>
        simp [isBlackCell, isWhiteCell, hustrip, ho]
    have hip : (if isBlackCell piece then 1 else 0)
        + (if isWhiteCell piece then 1 else 0) = 1 := by
      rcases hpiece with hp | hp <;>
        simp [isBlackCell, isWhiteCell, hp]
    omega

/-- `getCell` at natural coordinates, spelled with `getD`. -/
theorem getCell_natCast (b : Board) (i j : Nat) :
    getCell b (i : Int) (j : Int) = (b.getD j []).getD i "" := by
  unfold getCell
  rw [Int.toNat_natCast, Int.toNat_natCast]

/-- `pyGetCell` succeeds at in-range natural coordinates. -/
theorem pyGetCell_natCast (b : Board) (i j : Nat) (hj : j < b.length)
    (hi : i < (b.getD j []).length) :
    pyGetCell b (i : Int) (j : Int) = some (getCell b (i : Int) (j : Int)) := by
  unfold pyGetCell
  rw [pyIdx_of_nonneg_lt (Int.natCast_nonneg j) (by omega),
    Int.toNat_natCast, Option.some_bind,
    pyIdx_of_nonneg_lt (Int.natCast_nonneg i) (by omega),
    Int.toNat_natCast, Option.some_bind, getCell_natCast]

/-- C6 (conservation): for a canonical colour and a coordinate that
`legal_move` accepts, a completed `apply_move` increases
`blackCount + whiteCount` (as computed by `count_pieces`) by exactly one,
and the returned flip count equals the number of grid cells whose value
changed, the newly placed cell excluded. -/
theorem apply_move_conservation :
    ∀ (colour : String) (x y : Int) (b : Board) (n : Nat) (b2 : Board),
      colour = "Black" ∨ colour = "White" →
      legal_move colour x y b = true →
      apply_move colour x y b = some (n, b2) →
      (count_pieces b2).1 + (count_pieces b2).2
        = (count_pieces b).1 + (count_pieces b).2 + 1 ∧
      n = ((Finset.range b.length ×ˢ Finset.range b.length).filter
        (fun p : Nat × Nat =>
          getCell b2 (p.1 : Int) (p.2 : Int)
            ≠ getCell b (p.1 : Int) (p.2 : Int) ∧
          ((p.1 : Int), (p.2 : Int)) ≠ (x - 1, y - 1))).card := by
  intro colour x y b n b2 hcol hleg happ
  obtain ⟨hbnd, hpos⟩ := legal_move_dest hleg
  have hflne : discs_to_flip b colour (x - 1) (y - 1) ≠ [] := by
    intro hc
    rw [hc] at hpos
    simp at hpos
  obtain ⟨htarget, -⟩ := discs_to_flip_ne_nil_dest hflne
  have hstripc : pyStrip colour = colour := by
    rcases hcol with h | h <;> subst h <;> decide
  have hpieceeq : (if colour = "Black" then BLACK else WHITE) = colour := by
    rcases hcol with h | h <;> subst h <;> decide
  have hmemf : ∀ f ∈ discs_to_flip b colour (x - 1) (y - 1),
      0 ≤ f.1 ∧ f.1 < (b.length : Int) ∧ 0 ≤ f.2 ∧
      f.2 < (b.length : Int) ∧
      pyStrip (getCell b f.1 f.2)
        = (if colour = "Black" then "White" else "Black") ∧
      f ≠ (x - 1, y - 1) := by
    intro f hf
    obtain ⟨d, hd, k, hk, hray, h1, h2, h3, h4, hcell⟩ :=
      mem_discs_to_flip hf
    rw [hstripc] at hcell
    exact ⟨h1, h2, h3, h4, hcell, discs_to_flip_ne_target hf⟩
  obtain ⟨b1, hset, hfold, hn⟩ := apply_move_eq_some happ
  rw [hpieceeq] at hset hfold
  have hnodup := discs_to_flip_nodup b colour (x - 1) (y - 1)
  have hflcell : ∀ f ∈ discs_to_flip b colour (x - 1) (y - 1),
      getCell b f.1 f.2 ≠ "" := by
    intro f hf hc
    have h5 := (hmemf f hf).2.2.2.2.1
    rw [hc] at h5
    rcases hcol with h | h <;> subst h <;> exact absurd h5 (by decide)
  have hpgb : ∀ f ∈ discs_to_flip b colour (x - 1) (y - 1),
      pyGetCell b f.1 f.2 = some (getCell b f.1 f.2) := by
    intro f hf
    obtain ⟨h1, h2, h3, h4, -, -⟩ := hmemf f hf
    exact pyGetCell_of_ne_default h1 h3 h4 (hflcell f hf)
  have hpgb1 : ∀ f ∈ discs_to_flip b colour (x - 1) (y - 1),
      pyGetCell b1 f.1 f.2 = pyGetCell b f.1 f.2 := by
    intro f hf
    obtain ⟨h1, -, h3, -, -, hne⟩ := hmemf f hf
    refine pyGetCell_setCell_ne hset hbnd.1 hbnd.2.2.1 h1 h3 ?_
    intro hc
    exact hne (Prod.mk.eta.symm.trans hc)
  have htargetne : getCell b (x - 1) (y - 1) ≠ "" := by
    intro hc
    rw [hc] at htarget
    exact absurd htarget (by decide)
  have hpgt : pyGetCell b (x - 1) (y - 1)
      = some (getCell b (x - 1) (y - 1)) :=
    pyGetCell_of_ne_default hbnd.1 hbnd.2.2.1 hbnd.2.2.2 htargetne
  obtain ⟨u, hu, e1, e2⟩ := counts_setCell hset
  rw [hpgt] at hu
  injection hu with hu
  have hub : (if isBlackCell u then 1 else 0) = 0 := by
    rw [← hu]
    simp [isBlackCell, htarget]
  have huw : (if isWhiteCell u then 1 else 0) = 0 := by
    rw [← hu]
    simp [isWhiteCell, htarget]
  have hic : (if isBlackCell colour then 1 else 0)
      + (if isWhiteCell colour then 1 else 0) = 1 := by
    rcases hcol with h | h <;> subst h <;> decide
  have htotal : blackCount b2 + whiteCount b2
      = blackCount b1 + whiteCount b1 := by
    refine @foldlM_setCell_total colour
      (if colour = "Black" then "White" else "Black")
      (by rw [hstripc]; exact hcol) ?_ _ hnodup b1 b2 hfold
      (fun f hf => ⟨(hmemf f hf).1, (hmemf f hf).2.2.1⟩)
      (fun f hf => ⟨getCell b f.1 f.2, (hpgb1 f hf).trans (hpgb f hf),
        (hmemf f hf).2.2.2.2.1⟩)
    rcases hcol with h | h <;> subst h <;> decide
  have hsum : (count_pieces b2).1 + (count_pieces b2).2
      = (count_pieces b).1 + (count_pieces b).2 + 1 := by
    rw [count_pieces_eq, count_pieces_eq]
    show blackCount b2 + whiteCount b2
      = blackCount b + whiteCount b + 1
    omega
  have hshape := foldlM_setCell_shape
    (discs_to_flip b colour (x - 1) (y - 1)) b1 b2 hfold
  have hrowlen : ∀ j : Nat,
      (b2.getD j []).length = (b.getD j []).length := by
    intro j
    rw [hshape.2 j, setCell_row_length hset j]
  have hwrites : ∀ f ∈ discs_to_flip b colour (x - 1) (y - 1),
      pyGetCell b2 f.1 f.2 = some colour :=
    fun f hf => foldlM_setCell_writes _ b1 b2 hfold f hf
  have huntouched : ∀ i j : Nat,
      ((i : Int), (j : Int)) ∉ discs_to_flip b colour (x - 1) (y - 1) →
      ((i : Int), (j : Int)) ≠ (x - 1, y - 1) →
      pyGetCell b2 (i : Int) (j : Int) = pyGetCell b (i : Int) (j : Int) := by
    intro i j hmem hnp
    have h1 := foldlM_setCell_untouched _ b1 b2 hfold
      (fun f hf => ⟨(hmemf f hf).1, (hmemf f hf).2.2.1⟩) (i : Int) (j : Int)
      (Int.natCast_nonneg i) (Int.natCast_nonneg j) hmem
    have h2 := pyGetCell_setCell_ne hset hbnd.1 hbnd.2.2.1
      (Int.natCast_nonneg i) (Int.natCast_nonneg j) hnp
    rw [h1, h2]
  have hfinset : ((Finset.range b.length ×ˢ Finset.range b.length).filter
        (fun p : Nat × Nat =>
          getCell b2 (p.1 : Int) (p.2 : Int)
            ≠ getCell b (p.1 : Int) (p.2 : Int) ∧
          ((p.1 : Int), (p.2 : Int)) ≠ (x - 1, y - 1)))
      = ((discs_to_flip b colour (x - 1) (y - 1)).map
          (fun f => (f.1.toNat, f.2.toNat))).toFinset := by
    ext p
    obtain ⟨i, j⟩ := p
    simp only [Finset.mem_filter, Finset.mem_product, Finset.mem_range,
      List.mem_toFinset, List.mem_map]
    constructor
    · rintro ⟨⟨hi, hj⟩, hch, hnp⟩
      by_cases hmem : ((i : Int), (j : Int))
          ∈ discs_to_flip b colour (x - 1) (y - 1)
      · exact ⟨((i : Int), (j : Int)), hmem, by simp⟩
      · exfalso
        have hpgeq := huntouched i j hmem hnp
        by_cases hrl : i < (b.getD j []).length
        · have hb_some := pyGetCell_natCast b i j hj hrl
          have hb2_some : pyGetCell b2 (i : Int) (j : Int)
              = some (getCell b (i : Int) (j : Int)) := by
            rw [hpgeq, hb_some]
          have hvv := pyGetCell_nonneg_eq (Int.natCast_nonneg i)
            (Int.natCast_nonneg j) hb2_some
          exact hch hvv.symm
        · have hgb : getCell b (i : Int) (j : Int) = "" := by
            rw [getCell_natCast]
            exact List.getD_eq_default _ _ (by omega)
          have hgb2 : getCell b2 (i : Int) (j : Int) = "" := by
            rw [getCell_natCast]
            refine List.getD_eq_default _ _ ?_
            rw [hrowlen j]
            omega
          exact hch (hgb2.trans hgb.symm)
    · rintro ⟨f, hf, hfij⟩
      obtain ⟨h1, h2, h3, h4, hcell, hne⟩ := hmemf f hf
      rw [Prod.mk.injEq] at hfij
      have hfi : f.1 = (i : Int) := by
        rw [← hfij.1, Int.toNat_of_nonneg h1]
      have hfj : f.2 = (j : Int) := by
        rw [← hfij.2, Int.toNat_of_nonneg h3]
      have hich : i < b.length := by omega
      have hjch : j < b.length := by omega
      refine ⟨⟨hich, hjch⟩, ?_, ?_⟩
      · have hw := hwrites f hf
        have hb2v : getCell b2 f.1 f.2 = colour :=
          (pyGetCell_nonneg_eq h1 h3 hw).symm
        rw [← hfi, ← hfj, hb2v]
        intro hc
        rw [← hc, hstripc] at hcell
        rcases hcol with h | h <;> subst h <;> exact absurd hcell (by decide)
      · rw [← hfi, ← hfj]
        intro hc
        exact hne (Prod.mk.eta.symm.trans hc)
  have hmapnodup : ((discs_to_flip b colour (x - 1) (y - 1)).map
      (fun f => (f.1.toNat, f.2.toNat))).Nodup := by
    refine List.Nodup.map_on ?_ hnodup
    intro p hp q hq heq
    obtain ⟨hp1, -, hp3, -, -, -⟩ := hmemf p hp
    obtain ⟨hq1, -, hq3, -, -, -⟩ := hmemf q hq
    rw [Prod.mk.injEq] at heq
    have hh1 : p.1 = q.1 := by omega
    have hh2 : p.2 = q.2 := by omega
    exact Prod.ext hh1 hh2
  refine ⟨hsum, ?_⟩
  rw [hn, hfinset, List.toFinset_card_of_nodup hmapnodup, List.length_map]

/-- C6 witness: Black's opening move at (3, 4) on the standard initial
board is legal, completes, and raises the total piece count from 4 to 5. -/
theorem apply_move_conservation_witness :
    legal_move "Black" 3 4 (initialise_board 8) = true ∧
    (apply_move "Black" 3 4 (initialise_board 8)).map
      (fun r => (count_pieces r.2).1 + (count_pieces r.2).2) = some 5 := by
  refine ⟨by decide, ?_⟩
  cases hE : apply_move "Black" 3 4 (initialise_board 8) with
  | none => exact absurd hE (by decide)
  | some r =>
    have h := apply_move_conservation "Black" 3 4 (initialise_board 8)
      r.1 r.2 (Or.inl rfl) (by decide) (by rw [hE])
    have hc : (count_pieces (initialise_board 8)).1
        + (count_pieces (initialise_board 8)).2 = 4 := by decide
    show some ((count_pieces r.2).1 + (count_pieces r.2).2) = some 5
    rw [h.1, hc]
